import Mathlib

/-!
Shallow embedding of the `sprintfjs` Go package.

This file embeds the two source files of the `go-sprintfjs` repository
(`sprintfjs.go` and `number.go`) as executable Lean definitions and proves
properties of the parse + render pipeline.

Modelling conventions:

* Go `interface{}` argument values are modelled by the closed `Value` union
  below, covering every dynamic type the library's type switches distinguish.
* Machine integers are modelled as `Int`/`Nat` with explicit `% 2^32` /
  `% 2^64` where the code converts between widths.
* Go `float64` values are modelled by their exact (shortest) decimal form
  (`GoFloat`); the decimal model is exact for the integer-valued floats used
  in this development.  Bit-level double rounding (and hex float input
  syntax) is not modelled; no theorem below depends on it.
* `len(s)` on Go strings is UTF-8 byte length, modelled by
  `String.utf8ByteSize`.
* Fallible Go functions returning `(T, error)` are modelled with
  `Option`/`Except`.
-/

namespace GoSprintf

/-- The signed integer kinds distinguished by the library's type switches
(Go `int`, `int8`, `int32`, `int64`; `int` is 64-bit). -/
inductive IntKind
  | i
  | i8
  | i32
  | i64
  deriving DecidableEq

/-- The unsigned integer kinds distinguished by the library's type switches
(Go `uint`, `uint8`, `uint32`, `uint64`; `uint` is 64-bit). -/
inductive UIntKind
  | u
  | u8
  | u32
  | u64
  deriving DecidableEq

/-- An exact decimal number: value = (-1)^neg * mant * 10^exp.
`neg` with `mant = 0` models IEEE negative zero. -/
structure DecNum where
  neg : Bool
  mant : Nat
  exp : Int
  deriving DecidableEq

/-- Model of a Go `float64`, represented by its exact decimal value
(canonically the shortest decimal digits of the binary double). -/
inductive GoFloat
  | num (d : DecNum)
  | inf (neg : Bool)
  | nan
  deriving DecidableEq

/-- The closed union of runtime argument values.  `vfunc ret` models a
zero-argument Go function returning `ret`; `vptr isNil` models a pointer
(pointee abstracted, only nil-ness is observable to the library);
`vreflectVals l` models a `[]reflect.Value` slice, which arises from
`reflect.Value.Call` in `formatPlaceholder`.  `vregexp` models
`*regexp.Regexp` (a `fmt.Stringer` returning its pattern). -/
inductive Value
  | vnil
  | vbool (b : Bool)
  | vint (k : IntKind) (n : Int)
  | vuint (k : UIntKind) (n : Nat)
  | vfloat (f : GoFloat)
  | vstr (s : String)
  | vmap (m : List (String × Value))
  | varr (l : List Value)
  | vfunc (ret : Value)
  | vptr (isNil : Bool)
  | vregexp (pat : String)
  | vreflectVals (l : List Value)

/-! ## Go string and digit primitives -/

/-- Digit string of `n` in base `b` (lower-case hex digits), as produced by
Go's `strconv`/`fmt` integer formatting. -/
def natBase (b n : Nat) : String := String.mk (Nat.toDigits b n)

/-- Number of decimal digits of `n` (1 for 0). -/
def natDigitCount (n : Nat) : Nat := (Nat.toDigits 10 n).length

/-- `k` zero characters. -/
def zeroChars (k : Nat) : String := String.mk (List.replicate k '0')

/-- Left-pad a digit string with zeros to length `k`. -/
def padLeftZeros (s : String) (k : Nat) : String :=
  if s.length < k then zeroChars (k - s.length) ++ s else s

/-- Go `len(s)`: the UTF-8 byte length of a string. -/
def goLen (s : String) : Nat := s.utf8ByteSize

/-- Base used by a Go integer verb. -/
def verbBase (c : Char) : Nat :=
  if c = 'b' then 2 else if c = 'o' then 8 else if c = 'x' ∨ c = 'X' then 16 else 10

/-- Go `fmt` rendering of a signed integer under verb `c`
(`-` prefix for negatives, magnitude in the verb's base). -/
def goIntVerb (c : Char) (n : Int) : String :=
  let mag := natBase (verbBase c) n.natAbs
  let mag := if c = 'X' then String.mk (mag.toList.map Char.toUpper) else mag
  if n < 0 then "-" ++ mag else mag

/-! ## Decimal float formatting (model of `strconv.FormatFloat`) -/

/-- Strip factors of 10 from `m`, shifting them into the exponent; fuel-based
so that it evaluates in the kernel. -/
def stripZerosAux : Nat → Nat → Int → Nat × Int
  | 0, m, e => (m, e)
  | fuel + 1, m, e =>
    if m ≠ 0 ∧ m % 10 = 0 then stripZerosAux fuel (m / 10) (e + 1) else (m, e)

/-- Normalize a decimal mantissa/exponent pair by removing trailing zero
digits of the mantissa. -/
def stripZeros (m : Nat) (e : Int) : Nat × Int := stripZerosAux m m e

/-- Drop the last `cut` decimal digits of `mant`, rounding half-to-even
(the rounding used by `strconv`'s decimal conversion). -/
def roundHalfEven (mant cut : Nat) : Nat :=
  let p := 10 ^ cut
  let q := mant / p
  let r := mant % p
  let half := 5 * 10 ^ (cut - 1)
  if r > half ∨ (r = half ∧ q % 2 = 1) then q + 1 else q

/-- Exponent part of scientific notation: sign then at least two digits,
as Go's `strconv.FormatFloat` prints it. -/
def fmtExpPart (e : Int) : String :=
  let mag := natBase 10 e.natAbs
  let mag := if mag.length < 2 then "0" ++ mag else mag
  (if e < 0 then "-" else "+") ++ mag

/-- Reduce a nonzero mantissa to exactly `p + 1` significant digits
(padding with zeros or rounding), returning the new mantissa/exponent. -/
def fmtEDigits (p mant : Nat) (exp : Int) : Nat × Int :=
  let d := natDigitCount mant
  if d ≤ p + 1 then (mant * 10 ^ (p + 1 - d), exp - ((p + 1 - d : Nat) : Int))
  else
    let cut := d - (p + 1)
    let m2 := roundHalfEven mant cut
    let e2 := exp + (cut : Int)
    if natDigitCount m2 = p + 2 then (m2 / 10, e2 + 1) else (m2, e2)

/-- `strconv.FormatFloat(·, 'e', prec, 64)` on a finite decimal:
`d.ddd…e±XX` with at least two exponent digits. -/
def fmtE (neg : Bool) (mant : Nat) (exp : Int) (prec : Option Nat) : String :=
  let sgn := if neg then "-" else ""
  match prec with
  | none =>
    let me := stripZeros mant exp
    if me.1 = 0 then sgn ++ "0e+00"
    else
      let ds := natBase 10 me.1
      let e2 : Int := (ds.length : Int) - 1 + me.2
      let mantStr := if ds.length = 1 then ds else ds.take 1 ++ "." ++ ds.drop 1
      sgn ++ mantStr ++ "e" ++ fmtExpPart e2
  | some p =>
    if mant = 0 then
      sgn ++ "0" ++ (if p = 0 then "" else "." ++ zeroChars p) ++ "e+00"
    else
      let me := fmtEDigits p mant exp
      let ds := natBase 10 me.1
      let e2 : Int := (ds.length : Int) - 1 + me.2
      let mantStr := if p = 0 then ds.take 1 else ds.take 1 ++ "." ++ ds.drop 1
      sgn ++ mantStr ++ "e" ++ fmtExpPart e2

/-- `strconv.FormatFloat(·, 'f', prec, 64)` on a finite decimal. -/
def fmtF (neg : Bool) (mant : Nat) (exp : Int) (prec : Option Nat) : String :=
  let sgn := if neg then "-" else ""
  match prec with
  | none =>
    let me := stripZeros mant exp
    if me.1 = 0 then sgn ++ "0"
    else if me.2 ≥ 0 then sgn ++ natBase 10 me.1 ++ zeroChars me.2.toNat
    else
      let ds := natBase 10 me.1
      let k := (-me.2).toNat
      if ds.length > k then sgn ++ ds.take (ds.length - k) ++ "." ++ ds.drop (ds.length - k)
      else sgn ++ "0." ++ zeroChars (k - ds.length) ++ ds
  | some p =>
    let m2 :=
      if exp + (p : Int) ≥ 0 then mant * 10 ^ (exp + (p : Int)).toNat
      else roundHalfEven mant (-(exp + (p : Int))).toNat
    let ip := m2 / 10 ^ p
    let fp := m2 % 10 ^ p
    sgn ++ toString ip ++ (if p = 0 then "" else "." ++ padLeftZeros (toString fp) p)

/-- `strconv.FormatFloat(·, 'g', prec, 64)` on a finite decimal: `%e` for
large/small exponents, `%f` otherwise, trailing zeros removed. -/
def fmtG (neg : Bool) (mant : Nat) (exp : Int) (prec : Option Nat) : String :=
  match prec with
  | none =>
    let me := stripZeros mant exp
    if me.1 = 0 then if neg then "-0" else "0"
    else
      let nd := natDigitCount me.1
      let ebig : Int := (nd : Int) - 1 + me.2
      if ebig < -4 ∨ ebig ≥ 6 then fmtE neg me.1 me.2 none else fmtF neg me.1 me.2 none
  | some p0 =>
    let p := max p0 1
    let r :=
      if mant = 0 then ((0 : Nat), (0 : Int))
      else
        let d := natDigitCount mant
        if d ≤ p then (mant, exp)
        else
          let cut := d - p
          let m2 := roundHalfEven mant cut
          let e2 := exp + (cut : Int)
          if natDigitCount m2 = p + 1 then (m2 / 10, e2 + 1) else (m2, e2)
    let me := stripZeros r.1 r.2
    if me.1 = 0 then if neg then "-0" else "0"
    else
      let nd := natDigitCount me.1
      let dp : Int := (nd : Int) + me.2
      let ebig : Int := dp - 1
      let eprec : Int := if (p : Int) > (nd : Int) ∧ (nd : Int) ≥ dp then (nd : Int) else (p : Int)
      if ebig < -4 ∨ ebig ≥ eprec then fmtE neg me.1 me.2 none else fmtF neg me.1 me.2 none

/-- Model of `strconv.FormatFloat(f, c, prec, 64)` for the verbs the library
uses (`e`, `f`, `g`); `prec = none` is Go's `prec = -1` (shortest). -/
def goFormatFloat (f : GoFloat) (c : Char) (prec : Option Nat) : String :=
  match f with
  | .inf false => "+Inf"
  | .inf true => "-Inf"
  | .nan => "NaN"
  | .num d =>
    if c = 'f' then fmtF d.neg d.mant d.exp prec
    else if c = 'g' then fmtG d.neg d.mant d.exp prec
    else fmtE d.neg d.mant d.exp prec

/-! ## Model of `strconv` string-to-number parsing -/

/-- Value of a list of decimal digit characters. -/
def digitsToNat (ds : List Char) : Nat := ds.foldl (fun a c => a * 10 + (c.toNat - 48)) 0

/-- Split a leading run of decimal digits. -/
def spanDigits (cs : List Char) : List Char × List Char :=
  (cs.takeWhile Char.isDigit, cs.dropWhile Char.isDigit)

/-- Strip an optional leading sign, returning (isNegative, rest). -/
def splitSign : List Char → Bool × List Char
  | '+' :: t => (false, t)
  | '-' :: t => (true, t)
  | t => (false, t)

/-- Build a parsed float, modelling `strconv.ParseFloat`'s range errors
(overflow to ±Inf, underflow to 0, both with `ErrRange ≠ nil`) as failure;
the ±309/±324 decimal-exponent cutoffs approximate the binary64 range. -/
def mkParsedFloat (neg : Bool) (mant : Nat) (exp : Int) : Option GoFloat :=
  let me := stripZeros mant exp
  if me.1 = 0 then some (.num ⟨neg, 0, 0⟩)
  else
    let ebig : Int := (natDigitCount me.1 : Int) - 1 + me.2
    if ebig > 308 ∨ ebig < -324 then none else some (.num ⟨neg, me.1, me.2⟩)

/-- Model of `strconv.ParseFloat(s, 64)`: optional sign, decimal digits with
optional fraction and decimal exponent, or (case-insensitive) inf/infinity/nan.
Hex float syntax and digit-separating underscores are not modelled. -/
def goParseFloat (s : String) : Option GoFloat :=
  let sn := splitSign s.toList
  let neg := sn.1
  let low := sn.2.map Char.toLower
  if low = ['i', 'n', 'f'] ∨ low = ['i', 'n', 'f', 'i', 'n', 'i', 't', 'y'] then
    some (.inf neg)
  else if low = ['n', 'a', 'n'] then some .nan
  else
    let ipr := spanDigits sn.2
    let fpr :=
      match ipr.2 with
      | '.' :: t => spanDigits t
      | t => ([], t)
    if ipr.1 = [] ∧ fpr.1 = [] then none
    else
      let mant := digitsToNat (ipr.1 ++ fpr.1)
      let fexp : Int := -(fpr.1.length : Int)
      match fpr.2 with
      | [] => mkParsedFloat neg mant fexp
      | c :: t =>
        if c = 'e' ∨ c = 'E' then
          let esn := splitSign t
          let eds := spanDigits esn.2
          if eds.1 = [] ∨ eds.2 ≠ [] then none
          else
            let ev : Int := (if esn.1 then -1 else 1) * (digitsToNat eds.1 : Int)
            mkParsedFloat neg mant (ev + fexp)
        else none

/-- Model of `strconv.ParseInt(s, 10, 64)`: optional sign, decimal digits,
value must fit in a signed 64-bit integer. -/
def goParseInt64 (s : String) : Option Int :=
  let sn := splitSign s.toList
  let ds := spanDigits sn.2
  if ds.1 = [] ∨ ds.2 ≠ [] then none
  else
    let v : Int := (if sn.1 then -1 else 1) * (digitsToNat ds.1 : Int)
    if v < -(2 ^ 63) ∨ v > 2 ^ 63 - 1 then none else some v

/-- Model of `strconv.Atoi` (Go `int` is 64-bit here). -/
def goAtoi (s : String) : Option Int := goParseInt64 s

/-! ## The `Number` abstraction (`number.go`) -/

/-- The Go `%T` type string of a value (used in error messages and in
`fmt`'s bad-verb fallbacks).  Element types of slices/maps are fixed to
`interface{}` and pointers to `*int`, matching the abstraction of `Value`. -/
def goTypeString : Value → String
  | .vnil => "<nil>"
  | .vbool _ => "bool"
  | .vint .i _ => "int"
  | .vint .i8 _ => "int8"
  | .vint .i32 _ => "int32"
  | .vint .i64 _ => "int64"
  | .vuint .u _ => "uint"
  | .vuint .u8 _ => "uint8"
  | .vuint .u32 _ => "uint32"
  | .vuint .u64 _ => "uint64"
  | .vfloat _ => "float64"
  | .vstr _ => "string"
  | .vmap _ => "map[string]interface \x7b\x7d"
  | .varr _ => "[]interface \x7b\x7d"
  | .vfunc _ => "func() interface \x7b\x7d"
  | .vptr _ => "*int"
  | .vregexp _ => "*regexp.Regexp"
  | .vreflectVals _ => "[]reflect.Value"

/-- `Number.Float64` (`number.go` lines 94-121): conversion to `float64`.
Integer conversions are modelled exactly (binary64 rounding above 2^53 is
not modelled; no theorem depends on such values). -/
def numFloat64 : Value → Option GoFloat
  | .vint _ n => some (.num ⟨n < 0, n.natAbs, 0⟩)
  | .vuint _ n => some (.num ⟨false, n, 0⟩)
  | .vfloat f => some f
  | .vstr s => goParseFloat s
  | _ => none

/-- Reading a 64-bit unsigned value as Go `int64` (two's-complement wrap). -/
def int64OfUInt64 (n : Nat) : Int :=
  if n < 2 ^ 63 then (n : Int) else (n : Int) - 2 ^ 64

/-- Go `int64(f)` for a float64: truncation toward zero; NaN/±Inf and
out-of-range values give amd64's indefinite result `-2^63`. -/
def truncFloatToInt64 : GoFloat → Int
  | .num d =>
    let mag : Nat :=
      if d.exp ≥ 0 then d.mant * 10 ^ d.exp.toNat else d.mant / 10 ^ (-d.exp).toNat
    let v : Int := if d.neg then -(mag : Int) else (mag : Int)
    if v < -(2 ^ 63) ∨ v > 2 ^ 63 - 1 then -(2 ^ 63) else v
  | _ => -(2 ^ 63)

/-- `Number.Int64` (`number.go` lines 123-150): conversion to `int64`.
`uint`/`uint64` wrap through two's complement; strings go through
`strconv.ParseInt`. -/
def numInt64 : Value → Option Int
  | .vint _ n => some n
  | .vuint .u n => some (int64OfUInt64 n)
  | .vuint .u8 n => some (n : Int)
  | .vuint .u32 n => some (n : Int)
  | .vuint .u64 n => some (int64OfUInt64 n)
  | .vfloat f => some (truncFloatToInt64 f)
  | .vstr s => goParseInt64 s
  | _ => none

/-- `Number.IsNaN` (`number.go` lines 152-163): false exactly for the numeric
kinds and for float-parseable strings. -/
def numIsNaN (v : Value) : Bool :=
  match v with
  | .vint _ _ => false
  | .vuint _ _ => false
  | .vfloat _ => false
  | .vstr s => (goParseFloat s).isNone
  | _ => true

/-- `f ≥ 0` on the float model (IEEE: `-0.0 ≥ 0` holds, `NaN ≥ 0` fails). -/
def floatNonNeg : GoFloat → Bool
  | .num d => !d.neg || d.mant == 0
  | .inf neg => !neg
  | .nan => false

/-- `Number.IsPositive` (`number.go` lines 67-92). -/
def numIsPositive (v : Value) : Bool :=
  match v with
  | .vint _ n => decide (n ≥ 0)
  | .vfloat f => floatNonNeg f
  | .vuint _ _ => true
  | .vstr s =>
    match goParseFloat s with
    | some f => floatNonNeg f
    | none => false
  | _ => false

/-- `number.go` `unsigned` (lines 170-182): the width-dependent
two's-complement reinterpretation table.  `int`, `int8`, `int32` widen
through `uint32`; `int64` through `uint64`; everything else is unchanged. -/
def unsignedValue : Value → Value
  | .vint .i n => .vuint .u32 (n % (2 ^ 32 : Int)).toNat
  | .vint .i8 n => .vuint .u32 (n % (2 ^ 32 : Int)).toNat
  | .vint .i32 n => .vuint .u32 (n % (2 ^ 32 : Int)).toNat
  | .vint .i64 n => .vuint .u64 (n % (2 ^ 64 : Int)).toNat
  | v => v

/-! ## `fmt` default rendering (`fmt.Sprint`, `%v`, `%s`, `%c`) -/

/-- `reflect.Value.String()`: the wrapped string for string-kinded values,
`<T Value>` otherwise. -/
def reflectValString (v : Value) : String :=
  match v with
  | .vstr s => s
  | v => "<" ++ goTypeString v ++ " Value>"

/-- Insert a rendered key/value pair into a key-sorted list. -/
def insertPair (p : String × String) : List (String × String) → List (String × String)
  | [] => [p]
  | q :: t => if p.1 < q.1 ∨ p.1 = q.1 then p :: q :: t else q :: insertPair p t

/-- Sort rendered key/value pairs by key (Go `fmt` prints map keys sorted). -/
def sortPairsByKey : List (String × String) → List (String × String)
  | [] => []
  | p :: t => insertPair p (sortPairsByKey t)

/-- Render sorted pairs as `key:value` strings. -/
def sortedRendered (ps : List (String × String)) : List String :=
  (sortPairsByKey ps).map (fun p => p.1 ++ ":" ++ p.2)

mutual
/-- `fmt.Sprint` / the `%v` default rendering of a value.  Function and
non-nil pointer values print an address, abstracted here as `0x0` (every
use in the library only tests the string against `""`/`"0"`). -/
def goSprint : Value → String
  | .vnil => "<nil>"
  | .vbool b => if b then "true" else "false"
  | .vint _ n => toString n
  | .vuint _ n => toString n
  | .vfloat f => goFormatFloat f 'g' none
  | .vstr s => s
  | .vmap m => "map[" ++ String.intercalate " " (sortedRendered (goSprintPairs m)) ++ "]"
  | .varr l => "[" ++ String.intercalate " " (goSprintElems l) ++ "]"
  | .vfunc _ => "0x0"
  | .vptr true => "<nil>"
  | .vptr false => "0x0"
  | .vregexp pat => pat
  | .vreflectVals l => "[" ++ String.intercalate " " (l.map reflectValString) ++ "]"

/-- `%v` rendering of map entries, in order. -/
def goSprintPairs : List (String × Value) → List (String × String)
  | [] => []
  | (k, v) :: t => (k, goSprint v) :: goSprintPairs t

/-- `%v` rendering of slice elements, in order. -/
def goSprintElems : List Value → List String
  | [] => []
  | v :: t => goSprint v :: goSprintElems t
end

mutual
/-- `fmt` `%s` rendering of a value: strings and Stringers directly,
bad-verb fallbacks (`%!s(type=value)`) for non-string scalars, recursive
for maps and slices. -/
def goVerbS : Value → String
  | .vnil => "%!s(<nil>)"
  | .vbool b => "%!s(bool=" ++ (if b then "true" else "false") ++ ")"
  | .vint k n => "%!s(" ++ goTypeString (.vint k n) ++ "=" ++ toString n ++ ")"
  | .vuint k n => "%!s(" ++ goTypeString (.vuint k n) ++ "=" ++ toString n ++ ")"
  | .vfloat f => "%!s(float64=" ++ goFormatFloat f 'g' none ++ ")"
  | .vstr s => s
  | .vmap m => "map[" ++ String.intercalate " " (sortedRendered (goVerbSPairs m)) ++ "]"
  | .varr l => "[" ++ String.intercalate " " (goVerbSElems l) ++ "]"
  | .vfunc _ => "%!s(func() interface \x7b\x7d=0x0)"
  | .vptr _ => "%!s(*int=0x0)"
  | .vregexp pat => pat
  | .vreflectVals l => "[" ++ String.intercalate " " (l.map reflectValString) ++ "]"

/-- `%s` rendering of map entries, in order. -/
def goVerbSPairs : List (String × Value) → List (String × String)
  | [] => []
  | (k, v) :: t => (k, goVerbS v) :: goVerbSPairs t

/-- `%s` rendering of slice elements, in order. -/
def goVerbSElems : List Value → List String
  | [] => []
  | v :: t => goVerbS v :: goVerbSElems t
end

/-- `fmt` `%c`: the character with the given code point; invalid code points
(negative, surrogate, > 0x10FFFF) print U+FFFD; non-integers get the
bad-verb fallback. -/
def goVerbC : Value → String
  | .vint _ n =>
    if 0 ≤ n ∧ n < 55296 ∨ 57343 < n ∧ n < 1114112 then
      String.mk [Char.ofNat n.toNat]
    else "�"
  | .vuint _ n =>
    if n < 55296 ∨ 57343 < n ∧ n < 1114112 then String.mk [Char.ofNat n]
    else "�"
  | v => "%!c(" ++ goTypeString v ++ "=" ++ goSprint v ++ ")"

/-- Truncate a string to at most `p` characters (Go measures string
precision in runes). -/
def truncRunes (s : String) (p : Nat) : String := String.mk (s.toList.take p)

/-- `fmt` `%.pv`: precision truncates strings and zero-pads integers; other
values are rendered then truncated (an approximation for compound values,
on which no theorem depends). -/
def goVerbVPrec (p : Nat) (v : Value) : String :=
  match v with
  | .vstr s => truncRunes s p
  | .vint _ n => (if n < 0 then "-" else "") ++ padLeftZeros (toString n.natAbs) p
  | .vuint _ n => padLeftZeros (toString n) p
  | v => truncRunes (goSprint v) p

/-! ## `Number.Format` (`number.go` lines 20-65) -/

/-- The `%!verb(type=value)` fallback written by `Number.Format`'s error
paths (`fmt.Fprintf(f, "%%!u(%T=%v)", …)`). -/
def numBadVerb (c : Char) (v : Value) : String :=
  "%!" ++ String.mk [c] ++ "(" ++ goTypeString v ++ "=" ++ goSprint v ++ ")"

/-- Go renders floats under `%b` in binary-exponent form
(e.g. `4503599627370496p-52`), which the decimal model cannot express;
rendered as an opaque marker.  No theorem depends on it. -/
def floatBinaryForm (f : GoFloat) : String :=
  goFormatFloat f 'g' none ++ "p+unmodelled"

/-- `fmt.Fprintf(f, "%b", value)` on the raw wrapped value
(`number.go` line 23). -/
def goVerbB : Value → String
  | .vint _ n => goIntVerb 'b' n
  | .vuint _ n => natBase 2 n
  | .vfloat f => floatBinaryForm f
  | v => numBadVerb 'b' v

/-- `trimEZAux cs l` scans index `l` downward over `cs` while it reads `'0'`,
stopping at `'+'` (keep one digit after it) or at any other character. -/
def trimEZAux (cs : List Char) : Nat → String
  | 0 => String.mk cs
  | l + 1 =>
    let c := cs.getD (l + 1) ' '
    if c = '+' then String.mk (cs.take (l + 3))
    else if c ≠ '0' then String.mk cs
    else trimEZAux cs l

/-- `number.go` `trimExcessZerosFromExponent` (lines 184-198):
`2e+00` becomes `2e+0`; anything not ending in an all-zero `+` exponent is
returned unchanged.  (Inputs are ASCII, so byte and character indexing
coincide.) -/
def trimExcessZerosFromExponent (s : String) : String :=
  trimEZAux s.toList (s.length - 1)

/-- `Number.Format` (`number.go` lines 20-65), i.e. what
`fmt.Sprintf("%<prec><c>", Number{value})` produces.  `prec` is the format
state's precision, consulted only by the float verbs (the other branches
re-enter `fmt` with a fresh format string, dropping it). -/
def numberFormat (c : Char) (prec : Option Nat) (v : Value) : String :=
  if c = 'b' then goVerbB v
  else if c = 'u' then
    match numInt64 (unsignedValue v) with
    | none => numBadVerb 'u' v
    | some i => toString i
  else if c = 'i' ∨ c = 'd' then
    match numInt64 v with
    | none => numBadVerb c v
    | some i => toString i
  else if c = 'e' ∨ c = 'f' ∨ c = 'g' then
    match numFloat64 v with
    | none => numBadVerb c v
    | some f =>
      let s := goFormatFloat f c prec
      if c = 'e' then trimExcessZerosFromExponent s else s
  else if c = 'x' ∨ c = 'X' ∨ c = 'o' then
    match numInt64 (unsignedValue v) with
    | none => numBadVerb c v
    | some i => goIntVerb c i
  else ""

/-! ## JSON encoding (model of `encoding/json`, the library's opaque
external collaborator for the `j` verb) -/

/-- JSON string escaping as `encoding/json` does it (HTML-escaping
`<`, `>`, `&`). -/
def jsonQuoteChar (c : Char) : String :=
  if c = '"' then "\\\""
  else if c = '\\' then "\\\\"
  else if c = '\n' then "\\n"
  else if c = '\r' then "\\r"
  else if c = '\t' then "\\t"
  else if c = '<' then "\\u003c"
  else if c = '>' then "\\u003e"
  else if c = '&' then "\\u0026"
  else if c.toNat < 32 then "\\u" ++ padLeftZeros (natBase 16 c.toNat) 4
  else String.mk [c]

/-- A JSON string literal. -/
def jsonQuote (s : String) : String :=
  "\"" ++ String.join (s.toList.map jsonQuoteChar) ++ "\""

mutual
/-- Compact `json.Marshal` of a value; `none` models an encode error
(functions, NaN/Inf floats).  Non-nil pointer pointees are abstracted. -/
def jsonC : Value → Option String
  | .vnil => some "null"
  | .vbool b => some (if b then "true" else "false")
  | .vint _ n => some (toString n)
  | .vuint _ n => some (toString n)
  | .vfloat (.num d) => some (fmtG d.neg d.mant d.exp none)
  | .vfloat _ => none
  | .vstr s => some (jsonQuote s)
  | .vmap m =>
    match jsonCPairs m with
    | none => none
    | some ps =>
      some ("\x7b" ++
        String.intercalate ","
          ((sortPairsByKey ps).map (fun p => jsonQuote p.1 ++ ":" ++ p.2)) ++ "\x7d")
  | .varr l =>
    match jsonCElems l with
    | none => none
    | some es => some ("[" ++ String.intercalate "," es ++ "]")
  | .vfunc _ => none
  | .vptr _ => some "null"
  | .vregexp _ => some "\x7b\x7d"
  | .vreflectVals l =>
    some ("[" ++ String.intercalate "," (l.map (fun _ => "\x7b\x7d")) ++ "]")

/-- Compact JSON of map entries, in order. -/
def jsonCPairs : List (String × Value) → Option (List (String × String))
  | [] => some []
  | (k, v) :: t =>
    match jsonC v, jsonCPairs t with
    | some s, some r => some ((k, s) :: r)
    | _, _ => none

/-- Compact JSON of slice elements, in order. -/
def jsonCElems : List Value → Option (List String)
  | [] => some []
  | v :: t =>
    match jsonC v, jsonCElems t with
    | some s, some r => some (s :: r)
    | _, _ => none
end

/-- Indent prefix of depth `d` with `w` spaces per level. -/
def jsonIndentOf (w d : Nat) : String := String.mk (List.replicate (w * d) ' ')

mutual
/-- `json.MarshalIndent` of a value with `w` spaces per level at nesting
depth `d`. -/
def jsonP (w d : Nat) : Value → Option String
  | .vmap m =>
    match jsonPPairs w (d + 1) m with
    | none => none
    | some ps =>
      match ps with
      | [] => some "\x7b\x7d"
      | _ =>
        some ("\x7b\n" ++
          String.intercalate ",\n"
            ((sortPairsByKey ps).map
              (fun p => jsonIndentOf w (d + 1) ++ jsonQuote p.1 ++ ": " ++ p.2)) ++
          "\n" ++ jsonIndentOf w d ++ "\x7d")
  | .varr l =>
    match jsonPElems w (d + 1) l with
    | none => none
    | some es =>
      match es with
      | [] => some "[]"
      | _ =>
        some ("[\n" ++
          String.intercalate ",\n" (es.map (fun e => jsonIndentOf w (d + 1) ++ e)) ++
          "\n" ++ jsonIndentOf w d ++ "]")
  | v => jsonC v

/-- Indented JSON of map entries, in order. -/
def jsonPPairs (w d : Nat) : List (String × Value) → Option (List (String × String))
  | [] => some []
  | (k, v) :: t =>
    match jsonP w d v, jsonPPairs w d t with
    | some s, some r => some ((k, s) :: r)
    | _, _ => none

/-- Indented JSON of slice elements, in order. -/
def jsonPElems (w d : Nat) : List Value → Option (List String)
  | [] => some []
  | v :: t =>
    match jsonP w d v, jsonPElems w d t with
    | some s, some r => some (s :: r)
    | _, _ => none
end

/-- `sprintfjs.go` `formatJSON` (lines 312-321): `MarshalIndent` with
`indent` spaces when `indent > 0`, compact `Marshal` otherwise. -/
def formatJSON (v : Value) (indent : Int) : Except String String :=
  match (if indent > 0 then jsonP indent.toNat 0 v else jsonC v) with
  | some s => .ok s
  | none => .error "json: unsupported type"

/-! ## The renderer (`sprintfjs.go`) -/

/-- Errors produced by the parse/render pipeline.  Each constructor stands
for one `fmt.Errorf`/`errors.New` site in the source. -/
inductive FormatError
  | notANumber (typeStr : String)
  | formatFailed (msg : String)
  | implicitOutOfRange (need : Int)
  | positionalOutOfRange (idx : Int)
  | keyPathNil (key : String) (path : String)
  | keyPathType (key : String) (typeStr : String)
  deriving DecidableEq

/-- `sprintfjs.go` `ASTNode`.  `Keys` is an `Option` mirroring the Go nil
slice (`none` ⇔ positional placeholder). -/
structure ASTNode where
  Text : String := ""
  Placeholder : String := ""
  ParamNo : Int := 0
  Keys : Option (List String) := none
  Sign : String := ""
  Pad : String := ""
  Align : String := ""
  Width : Int := 0
  Precision : String := ""
  «Type» : String := ""

/-- `sprintfjs.go` `AST`. -/
abbrev AST := List ASTNode

/-- `reNotType` = `[^T]`: the string has a character other than `T`. -/
def reNotTypeMatch (s : String) : Bool := s.toList.any (· ≠ 'T')

/-- `reNotPrimitive` = `[^v]`. -/
def reNotPrimitiveMatch (s : String) : Bool := s.toList.any (· ≠ 'v')

/-- `reNumericArg` = `[bcdiefguxX]` — note: includes `c`, excludes `o`. -/
def reNumericArgMatch (s : String) : Bool :=
  s.toList.any (fun c => c ∈ ['b', 'c', 'd', 'i', 'e', 'f', 'g', 'u', 'x', 'X'])

/-- `reNumber` = `[diefg]`. -/
def reNumberMatch (s : String) : Bool :=
  s.toList.any (fun c => c ∈ ['d', 'i', 'e', 'f', 'g'])

/-- `reSign.ReplaceAllString(s, "")` for `reSign` = `^[+-]`: strip one
leading sign character. -/
def stripLeadingSign (s : String) : String :=
  match s.toList with
  | '+' :: t => String.mk t
  | '-' :: t => String.mk t
  | _ => s

/-- `sprintfjs.go` `sign` (lines 385-390). -/
def sign (positive : Bool) : String := if positive then "+" else "-"

/-- `sprintfjs.go` `isFunc` (lines 392-394): reflect kind check (a nil
interface has kind Invalid, not Func). -/
def isFunc : Value → Bool
  | .vfunc _ => true
  | _ => false

/-- `reflect.ValueOf(value).Call([]reflect.Value{})` on a zero-argument
function value: the call's result is the `[]reflect.Value` slice itself,
which is what `formatPlaceholder` assigns (`sprintfjs.go` line 249). -/
def callValue : Value → Value
  | .vfunc ret => .vreflectVals [ret]
  | v => v

/-- `sprintfjs.go` `coerceBoolean` (lines 396-426).  Pointer kind is tested
first — this catches both plain pointers and a compiled `*regexp.Regexp`
(kind Ptr, non-nil), so a regexp coerces to true regardless of its pattern;
then the int/uint/bool type switch (floats and everything else fall through
to the `fmt.Sprint` comparison — including a bare nil interface, whose kind
is Invalid, not Ptr). -/
def coerceBoolean (v : Value) : Bool :=
  match v with
  | .vptr isNil => !isNil
  | .vregexp _ => true
  | .vint _ n => n != 0
  | .vuint _ n => n != 0
  | .vbool b => b
  | v =>
    let s := goSprint v
    if s = "0" ∨ s = "" then false else true

/-- `sprintfjs.go` `typeName` (lines 356-383): the `%T` tag. -/
def typeName (v : Value) : String :=
  match v with
  | .vnil => "null"
  | _ =>
    if (match v with | .varr _ => true | .vreflectVals _ => true | _ => false) then "array"
    else if isFunc v then "function"
    else
      match v with
      | .vbool _ => "boolean"
      | .vstr _ => "string"
      | .vregexp _ => "regexp"
      | v2 => if numIsNaN v2 then "object" else "number"

/-- `sprintfjs.go` `trim` (lines 349-354): Go byte-slice truncation,
modelled on characters (its only caller passes the ASCII strings
`"true"`/`"false"`). -/
def trim (value : String) (width : Int) : String :=
  if width < 0 ∨ width ≥ (goLen value : Int) then value
  else String.mk (value.toList.take width.toNat)

/-- `strings.Repeat(s, n)`. -/
def repeatStr (s : String) (n : Nat) : String := String.join (List.replicate n s)

/-- Go `s[1:]` for the pad spec `'c` (the leading quote is one byte). -/
def dropFirstChar (s : String) : String := String.mk s.toList.tail

/-- `sprintfjs.go` `alignedPad` (lines 323-347).  All lengths are Go byte
lengths (`len`). -/
def alignedPad (value : String) (width : Int) (padChar align sign0 : String) : String :=
  let padChar := if padChar = "" then " "
    else if goLen padChar > 1 then dropFirstChar padChar else padChar
  let padLen : Int := width - (goLen sign0 : Int) - (goLen value : Int)
  let pad := if width > 0 ∧ padLen > 0 then repeatStr padChar padLen.toNat else ""
  if align = "-" then sign0 ++ value ++ pad
  else if padChar = "0" then sign0 ++ pad ++ value
  else pad ++ sign0 ++ value

/-- The three operand shapes the library hands to `fmt.Sprintf`: a `Number`
(which implements `fmt.Formatter`), a raw value, or a coerced boolean. -/
inductive FmtArg
  | num (v : Value)
  | val (v : Value)
  | bl (b : Bool)

/-- `fmt.Sprint` of a `formatWithPrecision` operand (reached only for the
boolean shape, via the `t` truncation path). -/
def fmtArgSprint : FmtArg → String
  | .num v => goSprint v
  | .val v => goSprint v
  | .bl b => if b then "true" else "false"

/-- `fmt.Sprintf("%<prec><verb>", arg)` for a single operand, covering the
verbs the library builds: `Number` operands dispatch to `Number.Format`,
booleans to `%t`, and raw values to the `s`/`c`/`v` rules. -/
def goSprintf1 (verb : Char) (prec : Option Nat) (a : FmtArg) : String :=
  match a with
  | .num v => numberFormat verb prec v
  | .bl b => if b then "true" else "false"
  | .val v =>
    if verb = 's' then
      match prec with
      | none => goVerbS v
      | some p => truncRunes (goVerbS v) p
    else if verb = 'c' then goVerbC v
    else if verb = 'v' then
      match prec with
      | none => goSprint v
      | some p => goVerbVPrec p v
    else goSprint v

/-- `sprintfjs.go` `formatWithPrecision` (lines 295-310).  The error string
(returned only from the `t` truncation path) is wrapped by the caller. -/
def formatWithPrecision (typ precision : String) (value : FmtArg) :
    Except String String :=
  if precision = "" then .ok (goSprintf1 typ.front none value)
  else if typ = "t" then
    match goAtoi precision with
    | none => .error ("failed to parse precision " ++ precision)
    | some w => .ok (trim (fmtArgSprint value) w)
  else .ok (goSprintf1 typ.front (some (digitsToNat precision.toList)) value)

/-- The deferred-value step at the top of `formatPlaceholder`
(`sprintfjs.go` lines 248-250): when the type character is neither `T` nor
`v` and the value is a function, it is replaced with the result of the
reflective call (which is the `[]reflect.Value` slice itself). -/
def resolveDeferred (typ : String) (v : Value) : Value :=
  if reNotTypeMatch typ ∧ reNotPrimitiveMatch typ ∧ isFunc v then callValue v else v

/-- The per-type-character dispatch of `formatPlaceholder` (the switch at
`sprintfjs.go` lines 258-278, minus the `j` case, which returns early). -/
def renderByType (t : Char) (typ precision : String) (value : Value) : Except String String :=
  match t with
  | 'c' => .ok (goVerbC value)
  | 'b' => formatWithPrecision typ precision (.num value)
  | 'd' => formatWithPrecision typ precision (.num value)
  | 'i' => formatWithPrecision typ precision (.num value)
  | 'u' => formatWithPrecision typ precision (.num value)
  | 'e' => formatWithPrecision typ precision (.num value)
  | 'f' => formatWithPrecision typ precision (.num value)
  | 'g' => formatWithPrecision typ precision (.num value)
  | 'o' => formatWithPrecision typ precision (.num value)
  | 'x' => formatWithPrecision typ precision (.num value)
  | 'X' => formatWithPrecision typ precision (.num value)
  | 's' => formatWithPrecision typ precision (.val value)
  | 't' => formatWithPrecision typ precision (.bl (coerceBoolean value))
  | 'T' => .ok (typeName value)
  | 'v' => formatWithPrecision typ precision (.val value)
  | _ => .ok (goSprint value)

/-- `sprintfjs.go` `formatPlaceholder` (lines 247-293).  A node with empty
`Type` would panic in Go (`ph.Type[0]` indexes an empty string); `Parse`
never produces one, and the model falls to the default branch instead. -/
def formatPlaceholder (ph : ASTNode) (value0 : Value) : Except FormatError String :=
  let value := resolveDeferred ph.«Type» value0
  if reNumericArgMatch ph.«Type» ∧ numIsNaN value then
    .error (.notANumber (goTypeString value))
  else if ph.«Type».front = 'j' then
    match formatJSON value ph.Width with
    | .ok s => .ok s
    | .error e =>
      .error (.formatFailed
        ("failed to format value " ++ goSprint value ++ " as " ++ ph.Placeholder ++ ": " ++ e))
  else
    match renderByType ph.«Type».front ph.«Type» ph.Precision value with
    | .error e =>
      .error (.formatFailed
        ("failed to format value " ++ goSprint value ++ " as " ++ ph.Placeholder ++ ": " ++ e))
    | .ok formattedValue =>
      let positive := numIsPositive value
      let doSign := reNumberMatch ph.«Type» ∧ (positive = false ∨ ph.Sign ≠ "")
      let signChar := if doSign then sign positive else ""
      let fv2 := if doSign then stripLeadingSign formattedValue else formattedValue
      .ok (alignedPad fv2 ph.Width ph.Pad ph.Align signChar)

/-! ## Argument resolution and `FormatAST` -/

/-- Go map indexing `marg[key]`: absent keys yield the zero value (nil). -/
def lookupMap (m : List (String × Value)) (key : String) : Value :=
  match m.lookup key with
  | some v => v
  | none => .vnil

/-- The key-segment walk of `argumentValue` (`sprintfjs.go` lines 219-228):
each iteration first rejects nil, then requires a string-keyed map, then
indexes (absent keys giving nil). `path` is `strings.Join(ph.Keys, ".")`. -/
def walkKeys (path : String) : List String → Value → Except FormatError Value
  | [], arg => .ok arg
  | key :: rest, arg =>
    match arg with
    | .vnil => .error (.keyPathNil key path)
    | .vmap m => walkKeys path rest (lookupMap m key)
    | v => .error (.keyPathType key (goTypeString v))

/-- `sprintfjs.go` `argumentValue` (lines 210-245): named key-path lookup at
the (unadvanced) cursor, explicit 1-based positional index, or implicit
cursor advance. -/
def argumentValue (ph : ASTNode) (args : List Value) (cursor : Nat) :
    Except FormatError (Value × Nat) :=
  match ph.Keys with
  | some keys =>
    if cursor ≥ args.length then .error (.implicitOutOfRange ((cursor : Int) + 1))
    else
      match walkKeys (String.intercalate "." keys) keys (args.getD cursor .vnil) with
      | .error e => .error e
      | .ok arg => .ok (arg, cursor)
  | none =>
    if ph.ParamNo ≠ 0 then
      if ph.ParamNo < 1 ∨ ph.ParamNo > (args.length : Int) then
        .error (.positionalOutOfRange ph.ParamNo)
      else .ok (args.getD (ph.ParamNo - 1).toNat .vnil, cursor)
    else
      if cursor ≥ args.length then .error (.implicitOutOfRange ((cursor : Int) + 1))
      else .ok (args.getD cursor .vnil, cursor + 1)

/-- The node loop of `FormatAST` (`sprintfjs.go` lines 187-206). -/
def formatNodes : List ASTNode → List Value → Nat → Except FormatError String
  | [], _, _ => .ok ""
  | node :: rest, args, cursor =>
    if node.Text ≠ "" then
      match formatNodes rest args cursor with
      | .error e => .error e
      | .ok r => .ok (node.Text ++ r)
    else
      match argumentValue node args cursor with
      | .error e => .error e
      | .ok ac =>
        match formatPlaceholder node ac.1 with
        | .error e => .error e
        | .ok f =>
          match formatNodes rest args ac.2 with
          | .error e => .error e
          | .ok r => .ok (f ++ r)

/-- `sprintfjs.go` `FormatAST` (lines 181-208). -/
def FormatAST (ast : AST) (args : List Value) : Except FormatError String :=
  formatNodes ast args 0

/-! ## The tokenizer and `Parse` (`sprintfjs.go` lines 50-137) -/

/-- Parse-time errors; each constructor is one error site in `Parse`. -/
inductive ParseError
  | unexpectedPlaceholder
  | mixedStyles
  | badKey
  | badParamNo (s : String)
  | badWidth (s : String)
  | fuelExhausted
  deriving DecidableEq

/-- The placeholder type-character class `[b-gijostTuvxX]`. -/
def isTypeChar (c : Char) : Bool :=
  ('b' ≤ c ∧ c ≤ 'g') ∨ c ∈ ['i', 'j', 'o', 's', 't', 'T', 'u', 'v', 'x', 'X']

/-- The capture groups of `rePlaceholder` (numbered as in the source). -/
structure PHMatch where
  m1 : String
  m2 : String
  m3 : String
  m4 : String
  m5 : String
  m6 : String
  m7 : String
  m8 : String
  deriving DecidableEq

/-- The argument selector `(?:([1-9]\d*)\$|\(([^)]+)\))?`: explicit index
digits, or a parenthesized key path, or neither (empty strings). -/
def matchSelector (cs : List Char) : String × String × List Char :=
  match cs with
  | c :: t =>
    if '1' ≤ c ∧ c ≤ '9' then
      let ds := spanDigits (c :: t)
      match ds.2 with
      | '$' :: u => (String.mk ds.1, "", u)
      | _ => ("", "", cs)
    else if c = '(' then
      let ct := t.takeWhile (· ≠ ')')
      match t.dropWhile (· ≠ ')') with
      | ')' :: u => if ct = [] then ("", "", cs) else ("", String.mk ct, u)
      | _ => ("", "", cs)
    else ("", "", cs)
  | [] => ("", "", cs)

/-- An optional single-character group such as `(\+)?` or `(-)?`. -/
def matchOpt (c : Char) (tok : String) (cs : List Char) : String × List Char :=
  match cs with
  | c2 :: t => if c2 = c then (tok, t) else ("", cs)
  | [] => ("", cs)

/-- The pad spec `(0|'[^$])?`. -/
def matchPad (cs : List Char) : String × List Char :=
  match cs with
  | '0' :: t => ("0", t)
  | '\'' :: c2 :: t => if c2 ≠ '$' then (String.mk ['\'', c2], t) else ("", cs)
  | _ => ("", cs)

/-- The precision group `(?:\.(\d+))?`. -/
def matchPrec (cs : List Char) : String × List Char :=
  match cs with
  | '.' :: t =>
    let ds := spanDigits t
    if ds.1 = [] then ("", cs) else (String.mk ds.1, ds.2)
  | _ => ("", cs)

/-- Model of `rePlaceholder` matching at the head of `cs` (which must start
with `%`): the capture groups and the matched length.  The regexp's
leftmost-first alternation and greedy optional groups are deterministic on
this grammar (no optional group can steal a character that a later group
needs for the only possible overall match), so a single greedy pass is
equivalent. -/
def matchPlaceholder (cs : List Char) : Option (PHMatch × Nat) :=
  match cs with
  | '%' :: t0 =>
    let s1 := matchSelector t0
    let t1 := s1.2.2
    let s3 := matchOpt '+' "+" t1
    let s4 := matchPad s3.2
    let s5 := matchOpt '-' "-" s4.2
    let wds := spanDigits s5.2
    let s7 := matchPrec wds.2
    match s7.2 with
    | c :: t7 =>
      if isTypeChar c then
        some ({ m1 := s1.1, m2 := s1.2.1, m3 := s3.1, m4 := s4.1, m5 := s5.1,
                m6 := String.mk wds.1, m7 := s7.1, m8 := String.mk [c] },
              cs.length - t7.length)
      else none
    | [] => none
  | _ => none

/-- `reKey`'s leading identifier class `[a-z_]` (case-insensitive). -/
def isKeyStart (c : Char) : Bool := c.isAlpha ∨ c = '_'

/-- `reKey`'s identifier-continuation class `[a-z_\d]` (case-insensitive). -/
def isKeyChar (c : Char) : Bool := c.isAlpha ∨ c = '_' ∨ c.isDigit

/-- `reKey` = `^(?i:([a-z_][a-z_\d]*))`. -/
def matchKey (cs : List Char) : Option (String × List Char) :=
  match cs with
  | c :: t =>
    if isKeyStart c then some (String.mk (c :: t.takeWhile isKeyChar), t.dropWhile isKeyChar)
    else none
  | [] => none

/-- `reKeyAccess` = `^\.(?i:([a-z_][a-z_\d]*))`. -/
def matchKeyAccess (cs : List Char) : Option (String × List Char) :=
  match cs with
  | '.' :: t => matchKey t
  | _ => none

/-- `reIndexAccess` = `^\[(\d+)\]`; the index is recognized but discarded
(`sprintfjs.go` lines 108-109). -/
def matchIndexAccess (cs : List Char) : Option (List Char) :=
  match cs with
  | '[' :: t =>
    let ds := spanDigits t
    if ds.1 = [] then none
    else
      match ds.2 with
      | ']' :: u => some u
      | _ => none
  | _ => none

/-- The key-path segment loop of `Parse` (`sprintfjs.go` lines 99-113);
fuel-based (each segment consumes at least one character). -/
def parseKeysAux : Nat → List Char → List String → Option (List String)
  | _, [], acc => some acc.reverse
  | 0, _, _ => none
  | fuel + 1, cs, acc =>
    match matchKeyAccess cs with
    | some kv => parseKeysAux fuel kv.2 (kv.1 :: acc)
    | none =>
      match matchIndexAccess cs with
      | some rest => parseKeysAux fuel rest acc
      | none => none

/-- Parse the key-path text of a named placeholder into its segments
(`sprintfjs.go` lines 92-117); `none` is the
"failed to parse named argument key" error. -/
def parseKeys (s : String) : Option (List String) :=
  match matchKey s.toList with
  | none => none
  | some kv => parseKeysAux s.toList.length kv.2 [kv.1]

/-- The loop of `Parse` (`sprintfjs.go` lines 55-135), fuel-based: every
iteration consumes at least one character, so fuel `length + 1` suffices
(`parseLoop_no_fuel_error` below).  With `checkMix = true` this is exactly
the source's loop (`argNames |= 1/2` and the `argNames == 3` error); with
`checkMix = false` the mixed-style check is skipped, which is used only to
*state* which placeholder styles a format string contains. -/
def parseLoop (checkMix : Bool) : Nat → Nat → List Char → Except ParseError (List ASTNode)
  | 0, _, _ => .error .fuelExhausted
  | fuel + 1, argNames, cs =>
    match cs with
    | [] => .ok []
    | c :: t =>
      if c ≠ '%' then
        match parseLoop checkMix fuel argNames ((c :: t).dropWhile (· ≠ '%')) with
        | .ok nodes => .ok ({ Text := String.mk ((c :: t).takeWhile (· ≠ '%')) } :: nodes)
        | .error e => .error e
      else
        if t.head? = some '%' then
          match parseLoop checkMix fuel argNames t.tail with
          | .ok nodes => .ok ({ Text := "%" } :: nodes)
          | .error e => .error e
        else
          match matchPlaceholder (c :: t) with
          | none => .error .unexpectedPlaceholder
          | some (m, len) =>
            let node0 : ASTNode :=
              { Placeholder := String.mk ((c :: t).take len), Sign := m.m3, Pad := m.m4,
                Align := m.m5, Precision := m.m7, «Type» := m.m8 }
            match (if m.m1 = "" then some 0 else goAtoi m.m1) with
            | none => .error (.badParamNo m.m1)
            | some paramNo =>
              match (if m.m6 = "" then some 0 else goAtoi m.m6) with
              | none => .error (.badWidth m.m6)
              | some width =>
                if m.m2 ≠ "" then
                  match parseKeys m.m2 with
                  | none => .error .badKey
                  | some keys =>
                    if checkMix ∧ argNames ||| 1 = 3 then .error .mixedStyles
                    else
                      match parseLoop checkMix fuel (argNames ||| 1) ((c :: t).drop len) with
                      | .ok nodes =>
                        .ok ({ node0 with
                               ParamNo := paramNo
                               Width := width
                               Keys := some keys } :: nodes)
                      | .error e => .error e
                else
                  if checkMix ∧ argNames ||| 2 = 3 then .error .mixedStyles
                  else
                    match parseLoop checkMix fuel (argNames ||| 2) ((c :: t).drop len) with
                    | .ok nodes =>
                      .ok ({ node0 with ParamNo := paramNo, Width := width } :: nodes)
                    | .error e => .error e

/-- `sprintfjs.go` `Parse` (lines 50-137). -/
def Parse (format : String) : Except ParseError AST :=
  parseLoop true (format.toList.length + 1) 0 format.toList

/-- The same tokenizer pass without the mixed-style check; used to state
theorems about which placeholder styles a format string contains. -/
def scanPlaceholders (format : String) : Except ParseError AST :=
  parseLoop false (format.toList.length + 1) 0 format.toList

/-- The error union returned by `Format` (parse or render error). -/
inductive GoError
  | parseErr (e : ParseError)
  | formatErr (e : FormatError)
  deriving DecidableEq

/-- `sprintfjs.go` `Format` (lines 173-179): `Parse` then `FormatAST`. -/
def Format (format : String) (args : List Value) : Except GoError String :=
  match Parse format with
  | .error e => .error (.parseErr e)
  | .ok ast =>
    match FormatAST ast args with
    | .error e => .error (.formatErr e)
    | .ok s => .ok s

/-! ## Claims

The theorems below settle the claims C1-C10 about the natural-language
specification, stated over the embedding above. -/

/-- Claim C1 (code bug): the deferred-value convention says a zero-argument
callable is replaced by *the result of invoking it*, so rendering a callable
should equal rendering its returned value directly.  The code instead
assigns the raw `[]reflect.Value` slice returned by the reflective call
(`value = reflect.ValueOf(value).Call([]reflect.Value{})`, missing
`[0].Interface()`), so `%s` of a function returning `"x"` renders the slice
as `"[x]"`, which differs from rendering `"x"` directly. -/
theorem c1_callable_unwrap_bug :
    formatPlaceholder { «Type» := "s" } (Value.vfunc (Value.vstr "x")) = Except.ok "[x]"
    ∧ formatPlaceholder { «Type» := "s" } (Value.vstr "x") = Except.ok "x"
    ∧ ("[x]" : String) ≠ "x" :=
  ⟨rfl, rfl, by decide⟩

/-- Claim C2 counterexample: a bare nil interface value coerces to TRUE, not
false as claimed — `reflect.ValueOf(nil)` has kind Invalid (not Ptr), nil
matches no case of the type switch, and `fmt.Sprint(nil) = "<nil>"` is
neither `""` nor `"0"`.  Also, the float value -0.0 (numerically zero)
coerces to true, since floats are absent from the numeric switch and
`fmt.Sprint(-0.0) = "-0"`. -/
theorem c2_counterexample :
    coerceBoolean Value.vnil = true
    ∧ coerceBoolean (Value.vfloat (.num ⟨true, 0, 0⟩)) = true :=
  ⟨rfl, rfl⟩

/-- The boolean-coercion table of claim C2, amended where the code disagrees
with it: a nil *pointer* is false and a non-nil pointer true (a compiled
`*regexp.Regexp` is a non-nil pointer, hence true whatever its pattern), but
a bare nil interface falls through to stringification (`"<nil>"`) and is
true; the non-zero test covers exactly the integer kinds of the type switch
(floats fall through to stringification, so -0.0 is true); booleans pass
through; every other value is false iff its `fmt.Sprint` form is empty or
`"0"`. -/
def coerceBooleanTable (v : Value) : Bool :=
  match v with
  | .vptr isNil => if isNil then false else true
  | .vregexp _ => true
  | .vint _ n => if n = 0 then false else true
  | .vuint _ n => if n = 0 then false else true
  | .vbool b => b
  | .vnil => true
  | v => if goSprint v = "" ∨ goSprint v = "0" then false else true

/-- Claim C2 (amended): `coerceBoolean` agrees with the amended coercion
table on every value. -/
theorem c2_coerce_boolean_amended : ∀ v : Value, coerceBoolean v = coerceBooleanTable v := by
  intro v
  cases v with
  | vint k n => by_cases h : n = 0 <;> simp [coerceBoolean, coerceBooleanTable, h]
  | vuint k n => by_cases h : n = 0 <;> simp [coerceBoolean, coerceBooleanTable, h]
  | vnil =>
    show (if ("<nil>" : String) = "0" ∨ ("<nil>" : String) = "" then false else true) = true
    decide
  | _ => simp [coerceBoolean, coerceBooleanTable, or_comm]

/-- Claim C7 counterexample: the `b` type character does NOT reinterpret
negative inputs as unsigned (`Number.Format`'s `b` branch re-prints the raw
signed value, so `%b` of -8 is `-1000`, not a 32-digit two's-complement
string), and for `int64` inputs the 64-bit unsigned widening is undone by
the signed `Int64()` readback, so `%u` of `int64(-2)` is `-2`, not
18446744073709551614. -/
theorem c7_counterexample :
    Format "%b" [Value.vint .i (-8)] = Except.ok "-1000"
    ∧ Format "%u" [Value.vint .i64 (-2)] = Except.ok "-2" :=
  ⟨rfl, rfl⟩

/-- Claim C7 (amended): for `int`, `int8` and `int32` inputs the `u`, `x`
(and `X`, `o`) type characters render the value's 32-bit two's-complement
unsigned equivalent `n mod 2^32` (the widening of `number.go`'s `unsigned`
survives the lossless signed readback); `Format("%u", -2)` is
`"4294967294"`; for `int64` inputs the 64-bit unsigned widening is undone
by the signed 64-bit readback, so an in-range `int64` renders as itself
(negatives keep their `-` sign); and the `b` type character renders the raw
signed value, never reinterpreting. -/
theorem c7_unsigned_widening_amended :
    (∀ n : Int,
      numberFormat 'u' none (.vint .i n) = toString (n % (2 ^ 32 : Int)).toNat
      ∧ numberFormat 'u' none (.vint .i8 n) = toString (n % (2 ^ 32 : Int)).toNat
      ∧ numberFormat 'u' none (.vint .i32 n) = toString (n % (2 ^ 32 : Int)).toNat
      ∧ numberFormat 'x' none (.vint .i n) = natBase 16 (n % (2 ^ 32 : Int)).toNat
      ∧ numberFormat 'o' none (.vint .i n) = natBase 8 (n % (2 ^ 32 : Int)).toNat)
    ∧ Format "%u" [Value.vint .i (-2)] = Except.ok "4294967294"
    ∧ (∀ n : Int, -(2 ^ 63) ≤ n → n < 2 ^ 63 →
        numberFormat 'u' none (.vint .i64 n) = toString n)
    ∧ (∀ n : Int, n < 0 →
        numberFormat 'b' none (.vint .i n) = "-" ++ natBase 2 n.natAbs) := by
  refine ⟨fun n => ⟨rfl, rfl, rfl, ?_, ?_⟩, rfl, ?_, ?_⟩
  · show goIntVerb 'x' ((n % (2 ^ 32 : Int)).toNat : Int) = _
    have h0 : ¬ (((n % (2 ^ 32 : Int)).toNat : Int) < 0) := by omega
    simp [goIntVerb, verbBase, h0, Int.natAbs_ofNat]
    congr 1
    omega
  · show goIntVerb 'o' ((n % (2 ^ 32 : Int)).toNat : Int) = _
    have h0 : ¬ (((n % (2 ^ 32 : Int)).toNat : Int) < 0) := by omega
    simp [goIntVerb, verbBase, h0, Int.natAbs_ofNat]
    congr 1
    omega
  · intro n h1 h2
    show toString (int64OfUInt64 (n % (2 ^ 64 : Int)).toNat) = toString n
    congr 1
    unfold int64OfUInt64
    split <;> omega
  · intro n h
    show goIntVerb 'b' n = _
    simp [goIntVerb, verbBase, h]

/-- Witness for the amended claim C7, at `int64(-2)` under `%u` and
`int(-8)` under `%b`. -/
theorem c7_unsigned_widening_amended_witness :
    numberFormat 'u' none (.vint .i64 (-2)) = toString (-2 : Int)
    ∧ numberFormat 'b' none (.vint .i (-8)) = "-" ++ natBase 2 (Int.natAbs (-8)) :=
  ⟨c7_unsigned_widening_amended.2.2.1 (-2) (by decide) (by decide),
   c7_unsigned_widening_amended.2.2.2 (-8) (by decide)⟩

/-! ### Byte-length lemmas for the padding claims -/

lemma utf8Go_append (a b : List Char) :
    String.utf8ByteSize.go (a ++ b) = String.utf8ByteSize.go a + String.utf8ByteSize.go b := by
  induction a with
  | nil => simp [String.utf8ByteSize.go]
  | cons h t ih => simp [String.utf8ByteSize.go, ih]; ring

lemma goLen_append (a b : String) : goLen (a ++ b) = goLen a + goLen b := by
  cases a with
  | mk da =>
    cases b with
    | mk db =>
      show (String.mk (da ++ db)).utf8ByteSize = _
      simp only [String.utf8ByteSize]
      exact utf8Go_append _ _

lemma goLen_empty : goLen "" = 0 := rfl

lemma goLen_foldl_append (l : List String) (acc : String) :
    goLen (l.foldl (· ++ ·) acc) = goLen acc + goLen (l.foldl (· ++ ·) "") := by
  induction l generalizing acc with
  | nil => simp [goLen_empty]
  | cons h t ih =>
    rw [List.foldl_cons, List.foldl_cons, ih (acc ++ h), ih ("" ++ h),
      goLen_append, goLen_append, goLen_empty]
    ring

lemma goLen_repeatStr (s : String) (n : Nat) : goLen (repeatStr s n) = n * goLen s := by
  induction n with
  | zero => simp [repeatStr, String.join, goLen_empty]
  | succ k ih =>
    show goLen (String.join (s :: List.replicate k s)) = _
    unfold String.join
    rw [List.foldl_cons, goLen_foldl_append, goLen_append, goLen_empty]
    have h2 : goLen (List.foldl (· ++ ·) "" (List.replicate k s)) = goLen (repeatStr s k) := rfl
    rw [h2, ih]
    ring

lemma repeatStr_zero (s : String) : repeatStr s 0 = "" := rfl

/-- The clamping of the pad amount: the code's guarded `strings.Repeat`
equals a repeat of the spec's clamped `padLen`. -/
lemma pad_amount_eq (pc : String) (w a b : Int) :
    (if w > 0 ∧ w - a - b > 0 then repeatStr pc (w - a - b).toNat else "")
      = repeatStr pc (if w ≤ 0 then 0 else (w - a - b).toNat) := by
  by_cases h1 : w ≤ 0
  · rw [if_pos h1, if_neg (by omega)]
    rfl
  · rw [if_neg h1]
    by_cases h2 : w - a - b > 0
    · rw [if_pos ⟨by omega, h2⟩]
    · rw [if_neg (by omega)]
      have h3 : (w - a - b).toNat = 0 := by omega
      rw [h3]
      rfl

/-- The pad specs `Parse` can produce: absent, `0`, or a quote followed by
one character. -/
def PadSpecWF (p : String) : Prop :=
  p = "" ∨ p = "0" ∨ ∃ c : Char, p = String.mk ['\'', c]

/-- The padding/alignment composition exactly as the spec words it (§4.3):
`padChar` defaults to space, is `0` when zero-padding was requested, or is
the supplied custom character; `padLen = width - len(sign) - len(value)`
in bytes, clamped to zero when negative or when the width is non-positive;
left-align puts sign+value before the padding, zero-padding puts the sign
before the padding, and otherwise the padding comes first. -/
def alignedPadSpec (value : String) (width : Int) (padSpec align sgn : String) : String :=
  let pc := if padSpec = "" then " " else if padSpec = "0" then "0" else dropFirstChar padSpec
  let pl : Nat :=
    if width ≤ 0 then 0 else (width - (goLen sgn : Int) - (goLen value : Int)).toNat
  if align = "-" then sgn ++ value ++ repeatStr pc pl
  else if pc = "0" then sgn ++ repeatStr pc pl ++ value
  else repeatStr pc pl ++ sgn ++ value

/-- Claim C6: for every rendered value, width, parse-producible pad spec,
alignment and sign, `alignedPad` computes exactly the spec's composition:
the clamped `padLen` and the three ordering cases. -/
theorem c6_padding_composition (value : String) (width : Int) (padSpec align sgn : String)
    (hp : PadSpecWF padSpec) :
    alignedPad value width padSpec align sgn = alignedPadSpec value width padSpec align sgn := by
  rcases hp with h | h | ⟨c, h⟩ <;> subst h
  · simp only [alignedPad, alignedPadSpec, if_true, if_false]
    rw [pad_amount_eq]
  · simp only [alignedPad, alignedPadSpec, if_true, if_false]
    rw [show (if goLen "0" > 1 then dropFirstChar "0" else "0") = "0" from rfl]
    rw [pad_amount_eq]
  · have hne : String.mk ['\'', c] ≠ "" := by
      intro hx
      have := congrArg String.data hx
      simp at this
    have hne0 : String.mk ['\'', c] ≠ "0" := by
      intro hx
      have := congrArg String.data hx
      simp [String.data] at this
    have hlen : goLen (String.mk ['\'', c]) > 1 := by
      show (String.mk ['\'', c]).utf8ByteSize > 1
      have he : (String.mk ['\'', c]) = String.mk ['\''] ++ String.mk [c] := rfl
      rw [he, show (String.mk ['\''] ++ String.mk [c]).utf8ByteSize
            = goLen (String.mk ['\''] ++ String.mk [c]) from rfl, goLen_append]
      have h2 : 1 ≤ goLen (String.mk [c]) := by
        show 1 ≤ (String.mk [c]).utf8ByteSize
        have := Char.utf8Size_pos c
        simp [String.utf8ByteSize, String.utf8ByteSize.go]
        omega
      have h1 : goLen (String.mk ['\'']) = 1 := rfl
      omega
    simp only [alignedPad, alignedPadSpec]
    rw [if_neg hne, if_pos hlen, if_neg hne, if_neg hne0]
    rw [pad_amount_eq]

/-- Claim C9: padding is computed from byte lengths — with space padding and
positive width the output's *byte* length is exactly
`max width (len sign + len value)` — and consequently a value whose
rendering contains a multi-byte UTF-8 character is padded to fewer
*characters* than the requested width (`é` is 2 bytes, so `%5s` of it
yields 4 characters). -/
theorem c9_byte_length_padding :
    (∀ (value sgn align : String) (w : Int), w > 0 →
      goLen (alignedPad value w "" align sgn) = max w.toNat (goLen sgn + goLen value))
    ∧ (alignedPad "é" 5 "" "" "").length < 5 := by
  constructor
  · intro value sgn align w hw
    simp only [alignedPad, if_true, if_false]
    set P := if w > 0 ∧ w - (goLen sgn : Int) - (goLen value : Int) > 0
        then repeatStr " " (w - (goLen sgn : Int) - (goLen value : Int)).toNat else "" with hP
    have hPlen : goLen P = if w - (goLen sgn : Int) - (goLen value : Int) > 0
        then (w - (goLen sgn : Int) - (goLen value : Int)).toNat else 0 := by
      rw [hP]
      by_cases h2 : w - (goLen sgn : Int) - (goLen value : Int) > 0
      · rw [if_pos ⟨hw, h2⟩, if_pos h2, goLen_repeatStr]
        rw [show goLen " " = 1 from rfl, Nat.mul_one]
      · rw [if_neg (by omega), if_neg h2]
        rfl
    split_ifs
    all_goals rw [goLen_append, goLen_append, hPlen]
    all_goals split_ifs <;> omega
  · decide

/-- Witness for claim C9 at the concrete multi-byte value `é` with width 5:
the byte length of the output is 5 but its character count is 4. -/
theorem c9_byte_length_padding_witness :
    goLen (alignedPad "é" 5 "" "" "") = max (Int.toNat 5) (goLen "" + goLen "é")
    ∧ (alignedPad "é" 5 "" "" "").length < 5 :=
  ⟨c9_byte_length_padding.1 "é" "" "" 5 (by decide), c9_byte_length_padding.2⟩

/-- Witness for claim C6 at a concrete zero-padded right-aligned render
(the `%05d` shape from the test suite). -/
theorem c6_padding_composition_witness :
    alignedPad "2" 5 "0" "" "-" = alignedPadSpec "2" 5 "0" "" "-" :=
  c6_padding_composition "2" 5 "0" "" "-" (Or.inr (Or.inl rfl))

/-! ### Exponent trimming (claim C4) -/

/-- Claim C4 counterexample: the exponent is NOT minimized for every
magnitude — `trimExcessZerosFromExponent` only strips an all-zero exponent,
so formatting 200000 with `%e` keeps strconv's two-digit exponent `2e+05`
(the claim's "minimum number of digits" would be `2e+5`). -/
theorem c4_counterexample :
    Format "%e" [Value.vint .i 200000] = Except.ok "2e+05"
    ∧ ("2e+05" : String) ≠ "2e+5" :=
  ⟨rfl, by decide⟩

lemma trimEZAux_plus_run (cs : List Char) (j : Nat) (hj : 1 ≤ j)
    (hplus : cs.getD j ' ' = '+') :
    ∀ m : Nat, (∀ i : Nat, j < i → i ≤ j + m → cs.getD i ' ' = '0') →
      trimEZAux cs (j + m) = String.mk (cs.take (j + 2)) := by
  intro m
  induction m with
  | zero =>
    intro _
    obtain ⟨j2, rfl⟩ : ∃ j2, j = j2 + 1 := ⟨j - 1, by omega⟩
    show trimEZAux cs (j2 + 1 + 0) = _
    rw [Nat.add_zero]
    simp only [trimEZAux, hplus]
    rfl
  | succ m ih =>
    intro h0
    have h0w : ∀ i : Nat, j < i → i ≤ j + m → cs.getD i ' ' = '0' := by
      intro i h1 h2
      exact h0 i h1 (by omega)
    have hc : cs.getD ((j + m) + 1) ' ' = '0' := by
      have h3 := h0 ((j + m) + 1) (by omega) (by omega)
      exact h3
    rw [show j + (m + 1) = (j + m) + 1 from by omega]
    simp only [trimEZAux, hc]
    exact ih h0w

/-- Only an all-zero exponent is trimmed: `body+0…0` becomes `body+0`. -/
lemma trimEZ_allzero (s : String) (k : Nat) (hs : s ≠ "") :
    trimExcessZerosFromExponent (s ++ "+" ++ zeroChars (k + 1)) = s ++ "+0" := by
  obtain ⟨sd⟩ := s
  have hsd : sd ≠ [] := fun h => hs (by rw [h])
  have hj : 1 ≤ sd.length := by
    cases sd with
    | nil => exact absurd rfl hsd
    | cons a t => simp
  have hdata : (String.mk sd ++ "+" ++ zeroChars (k + 1)).toList
      = sd ++ '+' :: List.replicate (k + 1) '0' := by
    show (String.mk sd ++ "+" ++ String.mk (List.replicate (k + 1) '0')).data = _
    simp [String.data_append]
  have hlen : (String.mk sd ++ "+" ++ zeroChars (k + 1)).length - 1
      = sd.length + (k + 1) := by
    have : (String.mk sd ++ "+" ++ zeroChars (k + 1)).length
        = (String.mk sd ++ "+" ++ zeroChars (k + 1)).toList.length := rfl
    rw [this, hdata]
    simp
  rw [trimExcessZerosFromExponent, hdata, hlen]
  have hplus : (sd ++ '+' :: List.replicate (k + 1) '0').getD sd.length ' ' = '+' := by
    rw [List.getD_eq_getElem?_getD, List.getElem?_append_right (le_refl _)]
    simp
  have h0 : ∀ i : Nat, sd.length < i → i ≤ sd.length + (k + 1) →
      (sd ++ '+' :: List.replicate (k + 1) '0').getD i ' ' = '0' := by
    intro i h1 h2
    rw [List.getD_eq_getElem?_getD, List.getElem?_append_right (by omega)]
    have h3 : i - sd.length = (i - sd.length - 1) + 1 := by omega
    rw [h3]
    simp only [List.getElem?_cons_succ]
    rw [List.getElem?_replicate]
    rw [if_pos (by omega)]
    rfl
  rw [trimEZAux_plus_run _ sd.length hj hplus (k + 1) h0]
  rw [List.take_append_eq_append_take, List.take_of_length_le (by omega)]
  have h4 : sd.length + 2 - sd.length = 2 := by omega
  rw [h4]
  show String.mk (sd ++ '+' :: List.take 1 (List.replicate (k + 1) '0')) = _
  rw [List.replicate_succ, List.take_succ_cons, List.take_zero]
  rfl

/-- A rendering that ends in anything other than `0` (and not `+`) is left
unchanged by the trimming. -/
lemma trimEZ_nonzero_end (s : String) (c : Char) (h0 : c ≠ '0') (hp : c ≠ '+') :
    trimExcessZerosFromExponent (s ++ String.mk [c]) = s ++ String.mk [c] := by
  obtain ⟨sd⟩ := s
  have hdata : (String.mk sd ++ String.mk [c]).toList = sd ++ [c] := rfl
  have hlen : (String.mk sd ++ String.mk [c]).length - 1 = sd.length := by
    show (sd ++ [c]).length - 1 = _
    simp
  rw [trimExcessZerosFromExponent, hdata, hlen]
  cases sd with
  | nil => rfl
  | cons a t =>
    rw [List.length_cons]
    have hcc : ((a :: t) ++ [c]).getD (t.length + 1) ' ' = c := by
      rw [List.getD_eq_getElem?_getD, List.getElem?_append_right (by simp)]
      simp
    simp only [trimEZAux, hcc]
    rw [if_neg hp, if_pos h0]
    rfl

/-- Claim C4 (amended): formatting 2 with `%e` yields `2e+0` — but only an
all-zero exponent is reduced to a single digit; a nonzero exponent keeps
strconv's two-digit form, so 200000 yields `2e+05`.  In general the
trimming rewrites `…+0…0` to `…+0` and leaves any rendering whose last
character is not a zero digit untouched. -/
theorem c4_exponent_trimming_amended :
    Format "%e" [Value.vint .i 2] = Except.ok "2e+0"
    ∧ Format "%e" [Value.vint .i 200000] = Except.ok "2e+05"
    ∧ (∀ (s : String) (k : Nat), s ≠ "" →
        trimExcessZerosFromExponent (s ++ "+" ++ zeroChars (k + 1)) = s ++ "+0")
    ∧ (∀ (s : String) (c : Char), c ≠ '0' → c ≠ '+' →
        trimExcessZerosFromExponent (s ++ String.mk [c]) = s ++ String.mk [c]) :=
  ⟨rfl, rfl, trimEZ_allzero, trimEZ_nonzero_end⟩

/-- Witness for the amended claim C4: the all-zero exponent `2e+00` is
trimmed to `2e+0`, and the nonzero exponent `2e+05` is left unchanged. -/
theorem c4_exponent_trimming_amended_witness :
    trimExcessZerosFromExponent ("2e" ++ "+" ++ zeroChars (1 + 1)) = "2e" ++ "+0"
    ∧ trimExcessZerosFromExponent ("2e+0" ++ String.mk ['5']) = "2e+0" ++ String.mk ['5'] :=
  ⟨c4_exponent_trimming_amended.2.2.1 "2e" 1 (by decide),
   c4_exponent_trimming_amended.2.2.2 "2e+0" '5' (by decide) (by decide)⟩

/-! ### The pre-dispatch numeric check (claim C3) and sign normalization
(claim C5) -/

/-- The character class of `reNumericArg` = `[bcdiefguxX]`
(note: `c` is included and `o` is absent). -/
def numericArgChars : List Char := ['b', 'c', 'd', 'i', 'e', 'f', 'g', 'u', 'x', 'X']

/-- Whether a render result is the pre-dispatch NotANumber error. -/
def isNotANumberErr : Except FormatError String → Bool
  | .error (.notANumber _) => true
  | _ => false

lemma reNumericArgMatch_singleton (t : Char) :
    reNumericArgMatch (String.mk [t]) = true ↔ t ∈ numericArgChars := by
  simp [reNumericArgMatch, numericArgChars]

lemma reNumberMatch_singleton (t : Char) :
    reNumberMatch (String.mk [t]) = true ↔ t ∈ (['d', 'i', 'e', 'f', 'g'] : List Char) := by
  simp [reNumberMatch]

/-- The shape of every successful non-`j` render: when the pre-dispatch
check passes and the dispatch returns `ok`, the sign/strip/pad postlude of
`formatPlaceholder` is applied to the dispatch result. -/
lemma formatPlaceholder_ok_shape (ph : ASTNode) (v : Value) (s : String)
    (hj : ph.«Type».front ≠ 'j')
    (hnan : ¬(reNumericArgMatch ph.«Type» ∧ numIsNaN (resolveDeferred ph.«Type» v)))
    (hr : renderByType ph.«Type».front ph.«Type» ph.Precision (resolveDeferred ph.«Type» v)
            = .ok s) :
    formatPlaceholder ph v
      = .ok (if reNumberMatch ph.«Type»
              ∧ (numIsPositive (resolveDeferred ph.«Type» v) = false ∨ ph.Sign ≠ "") then
          alignedPad (stripLeadingSign s) ph.Width ph.Pad ph.Align
            (sign (numIsPositive (resolveDeferred ph.«Type» v)))
        else alignedPad s ph.Width ph.Pad ph.Align "") := by
  simp only [formatPlaceholder]
  rw [if_neg hnan, if_neg hj, hr]
  by_cases hC : (reNumberMatch ph.«Type»
      ∧ (numIsPositive (resolveDeferred ph.«Type» v) = false ∨ ph.Sign ≠ ""))
  · simp only [if_pos hC]
  · simp only [if_neg hC]

/-- Claim C3 counterexample: `reNumericArg` is `[bcdiefguxX]`, so `c` IS
subject to the pre-dispatch check (a map under `%c` fails with NotANumber)
while `o` is NOT (a map under `%o` renders `Number.Format`'s `%!o(...)`
fallback and succeeds), contradicting the claimed set
`{b,d,e,f,g,i,o,u,x,X}` on both sides. -/
theorem c3_counterexample :
    formatPlaceholder { «Type» := "c" } (Value.vmap [])
      = Except.error (FormatError.notANumber "map[string]interface \x7b\x7d")
    ∧ formatPlaceholder { «Type» := "o" } (Value.vmap [])
      = Except.ok "%!o(map[string]interface \x7b\x7d=map[])" :=
  ⟨rfl, rfl⟩

/-- Claim C3 (amended): the pre-dispatch not-a-number check applies exactly
to the type characters of `reNumericArg` = `{b,c,d,e,f,g,i,u,x,X}` — for a
type character in that set and an is-NaN value the render fails with the
NotANumber error, and no type character outside the set can ever produce
that error. -/
theorem c3_numeric_check_amended (t : Char) (ph : ASTNode) (v : Value)
    (hT : ph.«Type» = String.mk [t]) :
    ((t ∈ numericArgChars ∧ numIsNaN (resolveDeferred ph.«Type» v) = true) →
      formatPlaceholder ph v
        = .error (.notANumber (goTypeString (resolveDeferred ph.«Type» v))))
    ∧ (t ∉ numericArgChars → isNotANumberErr (formatPlaceholder ph v) = false) := by
  obtain ⟨tx, pl, pn, ks, sg, pd, al, wd, pr, ty⟩ := ph
  obtain rfl : ty = String.mk [t] := hT
  constructor
  · rintro ⟨hmem, hnan⟩
    have hm : reNumericArgMatch (String.mk [t]) = true :=
      (reNumericArgMatch_singleton t).mpr hmem
    simp only [formatPlaceholder]
    rw [if_pos ⟨hm, hnan⟩]
  · intro hmem
    have hm : ¬(reNumericArgMatch (String.mk [t]) = true) :=
      fun hx => hmem ((reNumericArgMatch_singleton t).mp hx)
    simp only [formatPlaceholder]
    rw [if_neg (fun hh => hm hh.1)]
    split
    · split <;> rfl
    · split <;> rfl

/-- Witness for the amended claim C3: a map value under `%c` produces the
NotANumber error, and under `%o` it does not. -/
theorem c3_numeric_check_amended_witness :
    formatPlaceholder { «Type» := "c" } (Value.vmap [])
      = Except.error (FormatError.notANumber (goTypeString (resolveDeferred "c" (Value.vmap []))))
    ∧ isNotANumberErr (formatPlaceholder { «Type» := "o" } (Value.vmap [])) = false :=
  ⟨(c3_numeric_check_amended 'c' { «Type» := "c" } (Value.vmap []) rfl).1 ⟨by decide, rfl⟩,
   (c3_numeric_check_amended 'o' { «Type» := "o" } (Value.vmap []) rfl).2 (by decide)⟩

/-- Claim C5: sign normalization applies exactly to the `reNumber` type
characters `{d,i,e,f,g}` — when the value is not positive or the `+` flag
was given, one leading sign character of the rendered text is stripped and
the explicit sign (`-` if not positive, `+` otherwise) is passed to the
padding step; the unsigned characters `{b,o,u,x,X}` always get an empty
sign. -/
theorem c5_sign_normalization (t : Char) (ph : ASTNode) (v : Value) (s : String)
    (hT : ph.«Type» = String.mk [t]) :
    ((t ∈ (['d', 'i', 'e', 'f', 'g'] : List Char)) →
      renderByType ph.«Type».front ph.«Type» ph.Precision (resolveDeferred ph.«Type» v)
          = .ok s →
      numIsNaN (resolveDeferred ph.«Type» v) = false →
      formatPlaceholder ph v = .ok (
        if numIsPositive (resolveDeferred ph.«Type» v) = false ∨ ph.Sign ≠ "" then
          alignedPad (stripLeadingSign s) ph.Width ph.Pad ph.Align
            (sign (numIsPositive (resolveDeferred ph.«Type» v)))
        else alignedPad s ph.Width ph.Pad ph.Align ""))
    ∧ ((t ∈ (['b', 'o', 'u', 'x', 'X'] : List Char)) →
      renderByType ph.«Type».front ph.«Type» ph.Precision (resolveDeferred ph.«Type» v)
          = .ok s →
      numIsNaN (resolveDeferred ph.«Type» v) = false →
      formatPlaceholder ph v = .ok (alignedPad s ph.Width ph.Pad ph.Align "")) := by
  obtain ⟨tx, pl, pn, ks, sg, pd, al, wd, pr, ty⟩ := ph
  obtain rfl : ty = String.mk [t] := hT
  have hfront : (String.mk [t]).front = t := rfl
  constructor
  · intro hmem hOk hnan
    have hre : reNumberMatch (String.mk [t]) = true := (reNumberMatch_singleton t).mpr hmem
    have hj : (String.mk [t]).front ≠ 'j' := by
      rw [hfront]
      intro h
      subst h
      exact absurd hmem (by decide)
    rw [formatPlaceholder_ok_shape _ v s hj
      (fun hh => by rw [hnan] at hh; simp at hh) hOk]
    by_cases hC : (numIsPositive (resolveDeferred (String.mk [t]) v) = false ∨ sg ≠ "")
    · rw [if_pos ⟨hre, hC⟩, if_pos hC]
    · rw [if_neg (fun hh => hC hh.2), if_neg hC]
  · intro hmem hOk hnan
    have hj : (String.mk [t]).front ≠ 'j' := by
      rw [hfront]
      intro h
      subst h
      exact absurd hmem (by decide)
    rw [formatPlaceholder_ok_shape _ v s hj
      (fun hh => by rw [hnan] at hh; simp at hh) hOk]
    have hre : reNumberMatch (String.mk [t]) = false := by
      fin_cases hmem <;> rfl
    rw [if_neg (fun hh => by rw [hre] at hh; simp at hh)]

/-- Witness for claim C5: `%+05d` of -3 strips the rendered sign, prepends
`-` before the zero padding; `%x` of -255 gets no sign at all. -/
theorem c5_sign_normalization_witness :
    formatPlaceholder { Sign := "+", Pad := "0", Width := 5, «Type» := "d" }
        (Value.vint .i (-3)) = Except.ok "-0003"
    ∧ formatPlaceholder { «Type» := "x" } (Value.vint .i (-255))
        = Except.ok "ffffff01" := by
  constructor
  · rw [(c5_sign_normalization 'd' { Sign := "+", Pad := "0", Width := 5, «Type» := "d" }
      (Value.vint .i (-3)) "-3" rfl).1 (by decide) (by rfl) (by rfl)]
    rfl
  · rw [(c5_sign_normalization 'x' { «Type» := "x" }
      (Value.vint .i (-255)) "ffffff01" rfl).2 (by decide) (by rfl) (by rfl)]
    rfl

/-! ### Mixed placeholder styles (claim C8) -/

/-- Style bits of a node list, mirroring `Parse`'s `argNames` accumulator:
a named placeholder contributes 1, a positional placeholder 2, text nodes
nothing. -/
def styleBits : List ASTNode → Nat
  | [] => 0
  | nd :: t => (if nd.Text ≠ "" then 0 else if nd.Keys.isSome then 1 else 2) ||| styleBits t

/-- The node list contains a named placeholder. -/
def hasNamed (l : List ASTNode) : Bool :=
  l.any (fun nd => nd.Text == "" && nd.Keys.isSome)

/-- The node list contains a positional placeholder (implicit or explicit). -/
def hasPositional (l : List ASTNode) : Bool :=
  l.any (fun nd => nd.Text == "" && nd.Keys == none)

lemma styleBits_cons_text {tn : ASTNode} (l : List ASTNode) (h : tn.Text ≠ "") :
    styleBits (tn :: l) = styleBits l := by
  simp [styleBits, h]

lemma styleBits_cons_named {nd : ASTNode} (l : List ASTNode) (h1 : nd.Text = "")
    (h2 : nd.Keys.isSome = true) : styleBits (nd :: l) = 1 ||| styleBits l := by
  simp [styleBits, h1, h2]

lemma styleBits_cons_pos {nd : ASTNode} (l : List ASTNode) (h1 : nd.Text = "")
    (h2 : nd.Keys = none) : styleBits (nd :: l) = 2 ||| styleBits l := by
  simp [styleBits, h1, h2]

lemma styleBits_lt_four : ∀ l : List ASTNode, styleBits l < 4 := by
  intro l
  induction l with
  | nil => simp [styleBits]
  | cons nd t ih =>
    have h1 : (if nd.Text ≠ "" then 0 else if nd.Keys.isSome then 1 else 2) < 4 := by
      split_ifs <;> norm_num
    simp only [styleBits]
    set x := (if nd.Text ≠ "" then 0 else if nd.Keys.isSome then 1 else 2) with hx
    set y := styleBits t with hy
    interval_cases x <;> interval_cases y <;> decide

lemma three_or_eq {x : Nat} (hx : x < 4) : 3 ||| x = 3 := by
  interval_cases x <;> decide

/-- A text run starting with a character satisfying the predicate is a
nonempty string. -/
lemma stringMk_takeWhile_ne_empty {p : Char → Bool} {c : Char} {t : List Char}
    (h : p c = true) : String.mk ((c :: t).takeWhile p) ≠ "" := by
  rw [List.takeWhile_cons, if_pos h]
  intro hx
  exact absurd (congrArg String.data hx) (by simp)

/-- The central invariant for claim C8: when the style-blind scan
(`checkMix = false`) succeeds from style bits `a < 3`, `Parse`'s loop
(`checkMix = true`) fails with the mixed-style error exactly when the bits
accumulated over the whole input reach 3, and otherwise returns the same
nodes. -/
lemma parseLoop_mix (fuel : Nat) : ∀ (cs : List Char) (a : Nat) (nodes : List ASTNode),
    a < 3 →
    parseLoop false fuel a cs = .ok nodes →
    (a ||| styleBits nodes = 3 → parseLoop true fuel a cs = .error .mixedStyles)
    ∧ (a ||| styleBits nodes ≠ 3 → parseLoop true fuel a cs = .ok nodes) := by
  induction fuel with
  | zero =>
    intro cs a nodes ha h
    simp [parseLoop] at h
  | succ fuel ih =>
    intro cs a nodes ha h
    cases cs with
    | nil =>
      simp only [parseLoop] at h
      injection h with h
      subst h
      refine ⟨fun h3 => ?_, fun _ => by simp [parseLoop]⟩
      simp [styleBits] at h3
      omega
    | cons c t =>
      simp only [parseLoop] at h ⊢
      by_cases hc : c ≠ '%'
      · rw [if_pos hc] at h ⊢
        cases hrec : parseLoop false fuel a ((c :: t).dropWhile (· ≠ '%')) with
        | error e => rw [hrec] at h; simp at h
        | ok nodes2 =>
          rw [hrec] at h
          simp only [] at h
          injection h with h
          subst h
          obtain ⟨ih1, ih2⟩ := ih _ a nodes2 ha hrec
          constructor
          · intro h3
            rw [styleBits_cons_text _ (stringMk_takeWhile_ne_empty (by simp [hc]))] at h3
            rw [ih1 h3]
          · intro h3
            rw [styleBits_cons_text _ (stringMk_takeWhile_ne_empty (by simp [hc]))] at h3
            rw [ih2 h3]
      · rw [if_neg hc] at h ⊢
        by_cases hh : t.head? = some '%'
        · rw [if_pos hh] at h ⊢
          cases hrec : parseLoop false fuel a t.tail with
          | error e => rw [hrec] at h; simp at h
          | ok nodes2 =>
            rw [hrec] at h
            simp only [] at h
            injection h with h
            subst h
            obtain ⟨ih1, ih2⟩ := ih _ a nodes2 ha hrec
            constructor
            · intro h3
              rw [styleBits_cons_text _ (by decide)] at h3
              rw [ih1 h3]
            · intro h3
              rw [styleBits_cons_text _ (by decide)] at h3
              rw [ih2 h3]
        · rw [if_neg hh] at h ⊢
          cases hm : matchPlaceholder (c :: t) with
          | none => rw [hm] at h; simp at h
          | some ml =>
            rw [hm] at h
            obtain ⟨m, len⟩ := ml
            simp only [] at h ⊢
            cases hpn : (if m.m1 = "" then some 0 else goAtoi m.m1) with
            | none => rw [hpn] at h; simp at h
            | some paramNo =>
              rw [hpn] at h
              simp only [] at h ⊢
              cases hwd : (if m.m6 = "" then some 0 else goAtoi m.m6) with
              | none => rw [hwd] at h; simp at h
              | some width =>
                rw [hwd] at h
                simp only [] at h ⊢
                by_cases hm2 : m.m2 ≠ ""
                · rw [if_pos hm2] at h ⊢
                  cases hk : parseKeys m.m2 with
                  | none => rw [hk] at h; simp at h
                  | some keys =>
                    rw [hk] at h
                    simp only [] at h ⊢
                    rw [if_neg (by simp)] at h
                    cases hrec : parseLoop false fuel (a ||| 1) ((c :: t).drop len) with
                    | error e => rw [hrec] at h; simp at h
                    | ok nodes2 =>
                      rw [hrec] at h
                      simp only [] at h
                      injection h with h
                      subst h
                      by_cases h13 : a ||| 1 = 3
                      · constructor
                        · intro _
                          rw [if_pos ⟨trivial, h13⟩]
                        · intro h3
                          exfalso
                          apply h3
                          rw [styleBits_cons_named _ (by rfl) (by rfl), ← Nat.or_assoc, h13]
                          exact three_or_eq (styleBits_lt_four nodes2)
                      · have ha2 : a ||| 1 < 3 := by
                          interval_cases a
                          · decide
                          · decide
                          · exact absurd rfl h13
                        obtain ⟨ih1, ih2⟩ := ih _ (a ||| 1) nodes2 ha2 hrec
                        rw [if_neg (fun hx => h13 hx.2)]
                        constructor
                        · intro h3
                          rw [styleBits_cons_named _ (by rfl) (by rfl), ← Nat.or_assoc] at h3
                          rw [ih1 h3]
                        · intro h3
                          rw [styleBits_cons_named _ (by rfl) (by rfl), ← Nat.or_assoc] at h3
                          rw [ih2 h3]
                · rw [if_neg hm2] at h ⊢
                  rw [if_neg (by simp)] at h
                  cases hrec : parseLoop false fuel (a ||| 2) ((c :: t).drop len) with
                  | error e => rw [hrec] at h; simp at h
                  | ok nodes2 =>
                    rw [hrec] at h
                    simp only [] at h
                    injection h with h
                    subst h
                    by_cases h13 : a ||| 2 = 3
                    · constructor
                      · intro _
                        rw [if_pos ⟨trivial, h13⟩]
                      · intro h3
                        exfalso
                        apply h3
                        rw [styleBits_cons_pos _ (by rfl) (by rfl), ← Nat.or_assoc, h13]
                        exact three_or_eq (styleBits_lt_four nodes2)
                    · have ha2 : a ||| 2 < 3 := by
                        interval_cases a
                        · decide
                        · exact absurd rfl h13
                        · decide
                      obtain ⟨ih1, ih2⟩ := ih _ (a ||| 2) nodes2 ha2 hrec
                      rw [if_neg (fun hx => h13 hx.2)]
                      constructor
                      · intro h3
                        rw [styleBits_cons_pos _ (by rfl) (by rfl), ← Nat.or_assoc] at h3
                        rw [ih1 h3]
                      · intro h3
                        rw [styleBits_cons_pos _ (by rfl) (by rfl), ← Nat.or_assoc] at h3
                        rw [ih2 h3]

lemma hasNamed_cons (nd : ASTNode) (t : List ASTNode) :
    hasNamed (nd :: t) = ((nd.Text == "") && nd.Keys.isSome || hasNamed t) := rfl

lemma hasPositional_cons (nd : ASTNode) (t : List ASTNode) :
    hasPositional (nd :: t) = ((nd.Text == "") && (nd.Keys == none) || hasPositional t) := rfl

/-- The two style bits accumulated by the scan are exactly the two
placeholder-style predicates. -/
lemma styleBits_char : ∀ l : List ASTNode,
    styleBits l = (cond (hasNamed l) 1 0) ||| (cond (hasPositional l) 2 0) := by
  intro l
  induction l with
  | nil => rfl
  | cons nd t ih =>
    rw [show styleBits (nd :: t) =
          (if nd.Text ≠ "" then 0 else if nd.Keys.isSome then 1 else 2) ||| styleBits t
        from rfl,
        ih, hasNamed_cons, hasPositional_cons]
    by_cases hT : nd.Text = ""
    · have hT2 : (nd.Text == "") = true := by rw [hT]; rfl
      cases hKv : nd.Keys with
      | some k =>
        rw [if_neg (by simp [hT]), if_pos (by rfl), hT2]
        cases hasNamed t <;> cases hasPositional t <;> simp
      | none =>
        rw [if_neg (by simp [hT]), if_neg (by simp), hT2]
        cases hasNamed t <;> cases hasPositional t <;> simp
    · have hT2 : (nd.Text == "") = false := by simp [hT]
      rw [if_pos hT, hT2]
      cases hasNamed t <;> cases hasPositional t <;> simp

lemma styleBits_eq_three (l : List ASTNode) :
    styleBits l = 3 ↔ (hasNamed l = true ∧ hasPositional l = true) := by
  rw [styleBits_char]
  cases hN : hasNamed l <;> cases hP : hasPositional l <;> simp

/-- C8: if the format string contains both a named (key-path) placeholder and
a positional placeholder (in either relative order, as witnessed by the
style-blind scan succeeding with nodes exhibiting both styles), then `Parse`
fails with the mixed-style error; if the scanned nodes use at most one style,
`Parse` succeeds with exactly those nodes, so it never raises the mixed-style
error. -/
theorem c8_mixed_styles (format : String) (nodes : AST)
    (h : scanPlaceholders format = .ok nodes) :
    (hasNamed nodes = true ∧ hasPositional nodes = true →
        Parse format = .error .mixedStyles)
    ∧ (¬ (hasNamed nodes = true ∧ hasPositional nodes = true) →
        Parse format = .ok nodes) := by
  have hm := parseLoop_mix (format.toList.length + 1) format.toList 0 nodes
    (by norm_num) h
  constructor
  · intro hb
    exact hm.1 (by rw [Nat.zero_or]; exact (styleBits_eq_three nodes).2 hb)
  · intro hb
    exact hm.2 (by rw [Nat.zero_or]; exact fun hx => hb ((styleBits_eq_three nodes).1 hx))

/-- Witness for C8: a format mixing a named and an explicit positional
placeholder parses to the mixed-style error, while one using two named
placeholders does not. -/
theorem c8_mixed_styles_witness :
    Parse "%(a)s %d" = .error .mixedStyles ∧
      Parse "%(a)s %(b)s" ≠ .error .mixedStyles := by
  constructor
  · exact (c8_mixed_styles "%(a)s %d" _ rfl).1 ⟨rfl, rfl⟩
  · have h2 := (c8_mixed_styles "%(a)s %(b)s" _ rfl).2
      (fun hx => absurd hx.2 (by decide))
    rw [h2]
    intro hx
    exact Except.noConfusion hx

/-! ### Key-path traversal (claim C10) -/



/-- A key walk over an appended path splits into two walks. -/
lemma walkKeys_append (path : String) (a b : List String) (v : Value) :
    walkKeys path (a ++ b) v
      = match walkKeys path a v with
        | .ok u => walkKeys path b u
        | .error e => .error e := by
  induction a generalizing v with
  | nil => simp [walkKeys]
  | cons k rest ih => cases v <;> simp [walkKeys, ih]

/-- Claim C10: when a named placeholder's key path traverses maps
successfully up to but excluding the final segment, resolution succeeds and
yields the last map's entry for the final segment — which is nil when the
segment is absent — rather than failing; the traversal error can only come
from a nil or non-map value encountered before the final segment is
consumed. -/
theorem c10_absent_final_key (ph : ASTNode) (args : List Value) (cursor : Nat)
    (keys : List String) (lastKey : String) (m : List (String × Value))
    (hk : ph.Keys = some (keys ++ [lastKey]))
    (hc : cursor < args.length)
    (hw : walkKeys (String.intercalate "." (keys ++ [lastKey])) keys (args.getD cursor .vnil)
            = .ok (Value.vmap m)) :
    argumentValue ph args cursor = .ok (lookupMap m lastKey, cursor)
    ∧ (m.lookup lastKey = none → argumentValue ph args cursor = .ok (Value.vnil, cursor)) := by
  have h1 : argumentValue ph args cursor = .ok (lookupMap m lastKey, cursor) := by
    simp only [argumentValue, hk]
    rw [if_neg (by omega)]
    rw [walkKeys_append, hw]
    simp [walkKeys]
  refine ⟨h1, fun hnone => ?_⟩
  rw [h1]
  simp [lookupMap, hnone]

/-- Witness for claim C10: one-argument map `{a: {x: "y"}}` with key path
`a.b` — the prefix `a` resolves to a map, the final segment `b` is absent,
and resolution returns nil without error. -/
theorem c10_absent_final_key_witness :
    argumentValue { Keys := some ["a", "b"] }
        [Value.vmap [("a", Value.vmap [("x", Value.vstr "y")])]] 0
      = Except.ok (Value.vnil, 0) :=
  (c10_absent_final_key { Keys := some ["a", "b"] }
    [Value.vmap [("a", Value.vmap [("x", Value.vstr "y")])]] 0
    ["a"] "b" [("x", Value.vstr "y")] rfl (by decide) rfl).2 rfl

end GoSprintf
